import Mathlib

/-!
Shallow embedding of `matchzoo/generators/pair_generator.py`.

The file models the two core algorithms of the repository:

* `transform_relation` (PairBuilder): turns a flat relation table of
  `(id_left, id_right, label)` triples into a block-structured pair table,
  one block per emitted (positive, num_neg negatives) sample;
* `_get_batch_of_transformed_samples` (BatchAssembler, here `getBatch`):
  expands an array of logical block indices into row indices and joins
  ids / labels / features into a batch.

Modelling choices, each tied to a line of the source:

* A relation row is `(id_left, id_right, label)`; ids are `String`
  (the doctest uses "qid0", "did0", ...), labels are `Int` (graded
  relevance; the float cast of `tasks.Ranking().output_dtype` is exact on
  these values, the cast itself is tracked as a column-dtype tag).
* `relations['label'] = relations['label'].astype(...)` (line 103) mutates
  the caller's DataFrame in place; a `RelationTable` therefore carries a
  `labelDtype` tag and `transform_relation` returns the post-state of the
  caller's table alongside its result.
* `'label' not in relations.columns` (line 100) is the `hasLabel` flag;
  the raised `ValueError` is `BuildError.missingLabel`.
* `pd.concat(pairs, ignore_index=True)` (line 121) raises
  `ValueError: No objects to concatenate` when `pairs` is empty; this is
  `BuildError.emptyConcat`.  Otherwise it flattens the list of frames.
* `neg_samples.sample(n, replace=False)` draws without replacement from
  numpy's ambient global generator.  The generator is modelled as a stream
  `g : Nat → Nat` together with a draw counter threaded sequentially
  through the whole build: draw number `t` removes the element at index
  `g t % pool.length` from the remaining pool.
* `relations.sort_values('label', ascending=False)` is a sort of the rows
  by label, descending (tie order among equal labels is not observable by
  any property proved here); `.groupby('id_left')` iterates the groups of
  the sorted frame with keys in ascending order.
* `group.label.unique()` lists the distinct labels of the (descending
  sorted) group in order of first appearance.
* `pd.concat([pos_samples] * num_dup)` stacks the positive rows
  `num_dup` times.
* `pairs.extend((pos_sample, neg_sample))` (line 120) appends the one-row
  positive frame and the `num_neg`-row negative frame as two separate
  list elements.
-/

/-- One row of the relation / pair table: `(id_left, id_right, label)`. -/
structure Row where
  id_left : String
  id_right : String
  label : Int
deriving DecidableEq, Repr

/-- Pandas column dtype of the label column, as far as this model needs to
distinguish it: integer input labels versus the float dtype forced by
`tasks.Ranking().output_dtype`. -/
inductive Dtype where
  | int64 : Dtype
  | float64 : Dtype
deriving DecidableEq, Repr

/-- The caller's relation DataFrame: its rows, whether a `label` column is
present, and the dtype of that column. -/
structure RelationTable where
  rows : List Row
  hasLabel : Bool
  labelDtype : Dtype
deriving DecidableEq, Repr

/-- Errors `transform_relation` can raise: the explicit `ValueError` for a
missing label column (line 101), and the `ValueError` pandas raises from
`pd.concat([])` when no block was emitted (line 121). -/
inductive BuildError where
  | missingLabel : BuildError
  | emptyConcat : BuildError
deriving DecidableEq, Repr

deriving instance DecidableEq for Except

/-- `pool.sample(k, replace=False)`: draw `k` rows without replacement.
`g` is the ambient numpy global generator, `t` the index of the next draw;
draw `t` removes the element at position `g t % pool.length`. -/
def sampleWR (g : Nat → Nat) : Nat → Nat → List Row → List Row
  | _, 0, _ => []
  | t, k + 1, pool =>
    match pool[g t % pool.length]? with
    | none => []
    | some x => x :: sampleWR g (t + 1) k (pool.eraseIdx (g t % pool.length))

/-- Inner loop of `transform_relation` (lines 115-120): for each duplicated
positive row, if the negative pool is large enough, sample `num_neg`
negatives and extend `pairs` with the one-row positive frame and the
negative frame (two separate list elements); otherwise emit nothing.
Returns the emitted frames and the advanced draw counter. -/
def stratumStep (g : Nat → Nat) (num_neg : Nat) (negs : List Row) :
    Nat → List Row → List (List Row) × Nat
  | t, [] => ([], t)
  | t, p :: ps =>
    if num_neg ≤ negs.length then
      let ns := sampleWR g t num_neg negs
      let rest := stratumStep g num_neg negs (t + num_neg) ps
      ([p] :: ns :: rest.1, rest.2)
    else
      stratumStep g num_neg negs t ps

/-- Helper for `uniqueLabels`: keep the values not seen before. -/
def uniqueAux (seen : List Int) : List Int → List Int
  | [] => []
  | x :: xs =>
    if seen.contains x then uniqueAux seen xs
    else x :: uniqueAux (x :: seen) xs

/-- `group.label.unique()`: distinct values in order of first appearance. -/
def uniqueLabels (l : List Int) : List Int := uniqueAux [] l

/-- Middle loop of `transform_relation` (lines 111-120): for each stratum
label of the group, take its positive rows, duplicate them `num_dup`
times, form the negative pool, and run the per-positive loop. -/
def strataPairs (g : Nat → Nat) (num_neg num_dup : Nat) (group : List Row) :
    Nat → List Int → List (List Row) × Nat
  | t, [] => ([], t)
  | t, l :: ls =>
    let pos := group.filter (fun r => r.label == l)
    let posDup := (List.replicate num_dup pos).flatten
    let negs := group.filter (fun r => decide (r.label < l))
    let res := stratumStep g num_neg negs t posDup
    let rest := strataPairs g num_neg num_dup group res.2 ls
    (res.1 ++ rest.1, rest.2)

/-- Stable insertion of a row into a label-descending list: the row goes
in front of the first strictly smaller label. -/
def insertDesc (x : Row) : List Row → List Row
  | [] => [x]
  | y :: ys => if y.label < x.label then x :: y :: ys else y :: insertDesc x ys

/-- `relations.sort_values('label', ascending=False)`: sort rows by label,
descending. -/
def sortByLabelDesc (rows : List Row) : List Row :=
  rows.foldr insertDesc []

/-- Lexicographic character order on strings (Python's `<` on the ids,
which is the order pandas sorts group keys in). -/
def strLtB : List Char → List Char → Bool
  | [], [] => false
  | [], _ :: _ => true
  | _ :: _, [] => false
  | a :: as, b :: bs => if a < b then true else if b < a then false else strLtB as bs

/-- `a` sorts strictly before `b` as a group key. -/
def keyLt (a b : String) : Bool := strLtB a.data b.data

/-- Insertion of a key into an ascending list of group keys. -/
def insertKey (x : String) : List String → List String
  | [] => [x]
  | y :: ys => if keyLt x y then x :: y :: ys else y :: insertKey x ys

/-- First-occurrence deduplication of the `id_left` column. -/
def dedupKeysAux (seen : List String) : List String → List String
  | [] => []
  | x :: xs =>
    if seen.contains x then dedupKeysAux seen xs
    else x :: dedupKeysAux (x :: seen) xs

/-- The distinct `id_left` values, in order of first appearance. -/
def dedupKeys (l : List String) : List String := dedupKeysAux [] l

/-- `.groupby('id_left')` key order: distinct keys, ascending. -/
def groupKeys (rows : List Row) : List String :=
  (dedupKeys (rows.map Row.id_left)).foldr insertKey []

/-- Outer loop of `transform_relation` (line 109): iterate the groups of
the sorted frame in key order; each group is the sorted rows whose
`id_left` equals the key. -/
def groupsPairs (g : Nat → Nat) (num_neg num_dup : Nat) (sorted : List Row) :
    Nat → List String → List (List Row) × Nat
  | t, [] => ([], t)
  | t, k :: ks =>
    let group := sorted.filter (fun r => r.id_left == k)
    let res := strataPairs g num_neg num_dup group t
      (uniqueLabels (group.map Row.label))
    let rest := groupsPairs g num_neg num_dup sorted res.2 ks
    (res.1 ++ rest.1, rest.2)

/-- The `pairs` list built by `transform_relation` (lines 106-120), given
the ambient generator stream `g`. -/
def buildPairs (g : Nat → Nat) (num_neg num_dup : Nat) (rel : RelationTable) :
    List (List Row) :=
  let sorted := sortByLabelDesc rel.rows
  (groupsPairs g num_neg num_dup sorted 0 (groupKeys sorted)).1

/-- `PairGenerator.transform_relation` (lines 89-121).  Returns the
post-state of the caller's relation table (the label column is coerced to
the Ranking task's output dtype in place, line 103) together with the
result: the missing-label `ValueError`, the `pd.concat` failure on an
empty `pairs` list, or the concatenated pair table. -/
def transform_relation (g : Nat → Nat) (num_neg num_dup : Nat)
    (rel : RelationTable) : RelationTable × Except BuildError (List Row) :=
  if rel.hasLabel = false then
    (rel, Except.error BuildError.missingLabel)
  else
    let rel' : RelationTable :=
      { rows := rel.rows, hasLabel := rel.hasLabel, labelDtype := Dtype.float64 }
    let pairs := buildPairs g num_neg num_dup rel
    if pairs.isEmpty then
      (rel', Except.error BuildError.emptyConcat)
    else
      (rel', Except.ok pairs.flatten)

/-! ### Batch assembly (`_get_batch_of_transformed_samples`, lines 123-160) -/

/-- A feature DataFrame indexed by entity id, with one feature column of
token-id lists (the doctests' `text_left` / `text_right`). -/
abbrev FeatureTable := List (String × List Int)

/-- `features.loc[id, column]`: look the id up in the feature table.
`none` marks the ids on which pandas would raise a `KeyError`
(`FeatureLookupError` in the spec's taxonomy). -/
def featLookup (ft : FeatureTable) (i : String) : Option (List Int) :=
  List.lookup i ft

/-- The `trans_index` loop (lines 132-135): expand each logical index
`item` into `range(item * steps, (item + 1) * steps)` and accumulate. -/
def transIndex (steps : Nat) (index_array : List Nat) : List Nat :=
  index_array.foldl (fun acc item => acc ++ List.range' (item * steps) steps) []

/-- One assembled batch: per-row ids, looked-up features and labels
(lines 136-160).  A `none` entry marks a row index or feature id on which
pandas would raise. -/
@[ext]
structure Batch where
  id_left : List (Option String)
  id_right : List (Option String)
  text_left : List (Option (List Int))
  text_right : List (Option (List Int))
  label : List (Option Int)
deriving DecidableEq, Repr

/-- Row-wise concatenation of two batches. -/
def Batch.append (b1 b2 : Batch) : Batch :=
  { id_left := b1.id_left ++ b2.id_left
  , id_right := b1.id_right ++ b2.id_right
  , text_left := b1.text_left ++ b2.text_left
  , text_right := b1.text_right ++ b2.text_right
  , label := b1.label ++ b2.label }

/-- `_get_batch_of_transformed_samples`: expand the logical indices, gather
labels and ids for exactly those rows in that order, and join each row
against the two feature tables by id. -/
def getBatch (left right : FeatureTable) (steps : Nat) (table : List Row)
    (index_array : List Nat) : Batch :=
  let rows := (transIndex steps index_array).map (fun j => table[j]?)
  { id_left := rows.map (Option.map Row.id_left)
  , id_right := rows.map (Option.map Row.id_right)
  , text_left := rows.map (fun o => o.bind (fun x => featLookup left x.id_left))
  , text_right := rows.map (fun o => o.bind (fun x => featLookup right x.id_right))
  , label := rows.map (Option.map Row.label) }

/-! ### Sampling lemmas -/

theorem sampleWR_subset (g : Nat → Nat) :
    ∀ (k t : Nat) (pool : List Row) (r : Row), r ∈ sampleWR g t k pool → r ∈ pool := by
  intro k
  induction k with
  | zero => intro t pool r hr; simp [sampleWR] at hr
  | succ k ih =>
    intro t pool r hr
    rw [sampleWR] at hr
    cases hx : pool[g t % pool.length]? with
    | none => rw [hx] at hr; simp at hr
    | some x =>
      rw [hx] at hr
      rcases List.mem_cons.mp hr with hr | hr
      · exact hr ▸ List.getElem?_mem hx
      · exact List.mem_of_mem_eraseIdx (ih (t + 1) _ r hr)

theorem sampleWR_length (g : Nat → Nat) :
    ∀ (k t : Nat) (pool : List Row), k ≤ pool.length →
      (sampleWR g t k pool).length = k := by
  intro k
  induction k with
  | zero => intro t pool _; simp [sampleWR]
  | succ k ih =>
    intro t pool hk
    have hpos : 0 < pool.length := Nat.lt_of_lt_of_le (Nat.succ_pos k) hk
    have hlt : g t % pool.length < pool.length := Nat.mod_lt _ hpos
    rw [sampleWR, List.getElem?_eq_getElem hlt]
    have herase : (pool.eraseIdx (g t % pool.length)).length = pool.length - 1 :=
      List.length_eraseIdx_of_lt hlt
    have hk' : k ≤ (pool.eraseIdx (g t % pool.length)).length := by
      rw [herase]; omega
    simp [ih (t + 1) _ hk']

/-! ### Block structure of the built pair table -/

/-- A well-formed pair block: one positive row followed by `n` negatives,
each strictly less relevant than the positive and from the same
left-entity group. -/
def BlockWF (n : Nat) (b : List Row) : Prop :=
  ∃ p ns, b = p :: ns ∧ ns.length = n ∧
    ∀ r ∈ ns, r.label < p.label ∧ r.id_left = p.id_left

theorem stratumStep_blocks (g : Nat → Nat) (n : Nat) (negs : List Row)
    (l : Int) (key : String)
    (hneg : ∀ r ∈ negs, r.label < l ∧ r.id_left = key) :
    ∀ (ps : List Row) (t : Nat), (∀ p ∈ ps, p.label = l ∧ p.id_left = key) →
      ∃ blocks : List (List Row),
        (stratumStep g n negs t ps).1.flatten = blocks.flatten ∧
        ∀ b ∈ blocks, BlockWF n b := by
  intro ps
  induction ps with
  | nil => intro t _; exact ⟨[], rfl, by simp⟩
  | cons p ps ih =>
    intro t hp
    have hps : ∀ q ∈ ps, q.label = l ∧ q.id_left = key :=
      fun q hq => hp q (List.mem_cons_of_mem _ hq)
    by_cases hle : n ≤ negs.length
    · obtain ⟨blocks, hfl, hwf⟩ := ih (t + n) hps
      refine ⟨(p :: sampleWR g t n negs) :: blocks, ?_, ?_⟩
      · simp only [stratumStep, if_pos hle, List.flatten_cons, List.cons_append,
          List.nil_append, hfl]
      · intro b hb
        rcases List.mem_cons.mp hb with hb | hb
        · subst hb
          refine ⟨p, sampleWR g t n negs, rfl, sampleWR_length g n t negs hle, ?_⟩
          intro r hr
          have hrn := hneg r (sampleWR_subset g n t negs r hr)
          have hp0 := hp p (List.mem_cons_self _ _)
          exact ⟨by rw [hp0.1]; exact hrn.1, by rw [hp0.2, hrn.2]⟩
        · exact hwf b hb
    · obtain ⟨blocks, hfl, hwf⟩ := ih t hps
      exact ⟨blocks, by simp only [stratumStep, if_neg hle, hfl], hwf⟩

theorem strataPairs_blocks (g : Nat → Nat) (n d : Nat) (group : List Row)
    (key : String) (hkey : ∀ r ∈ group, r.id_left = key) :
    ∀ (ls : List Int) (t : Nat),
      ∃ blocks : List (List Row),
        (strataPairs g n d group t ls).1.flatten = blocks.flatten ∧
        ∀ b ∈ blocks, BlockWF n b := by
  intro ls
  induction ls with
  | nil => intro t; exact ⟨[], rfl, by simp⟩
  | cons l ls ih =>
    intro t
    have hneg : ∀ r ∈ group.filter (fun r => decide (r.label < l)),
        r.label < l ∧ r.id_left = key := by
      intro r hr
      have h := List.mem_filter.mp hr
      exact ⟨of_decide_eq_true h.2, hkey r h.1⟩
    have hpos : ∀ p ∈ (List.replicate d (group.filter (fun r => r.label == l))).flatten,
        p.label = l ∧ p.id_left = key := by
      intro p hp
      obtain ⟨s, hs, hps⟩ := List.mem_flatten.mp hp
      rw [(List.mem_replicate.mp hs).2] at hps
      have h := List.mem_filter.mp hps
      exact ⟨by simpa using h.2, hkey p h.1⟩
    obtain ⟨bs1, hf1, hw1⟩ := stratumStep_blocks g n _ l key hneg _ t hpos
    obtain ⟨bs2, hf2, hw2⟩ :=
      ih (stratumStep g n (group.filter (fun r => decide (r.label < l))) t
        ((List.replicate d (group.filter (fun r => r.label == l))).flatten)).2
    refine ⟨bs1 ++ bs2, ?_, ?_⟩
    · simp only [strataPairs, List.flatten_append, hf1, hf2]
    · intro b hb
      rcases List.mem_append.mp hb with h | h
      exacts [hw1 b h, hw2 b h]

theorem groupsPairs_blocks (g : Nat → Nat) (n d : Nat) (sorted : List Row) :
    ∀ (ks : List String) (t : Nat),
      ∃ blocks : List (List Row),
        (groupsPairs g n d sorted t ks).1.flatten = blocks.flatten ∧
        ∀ b ∈ blocks, BlockWF n b := by
  intro ks
  induction ks with
  | nil => intro t; exact ⟨[], rfl, by simp⟩
  | cons k ks ih =>
    intro t
    have hkey : ∀ r ∈ sorted.filter (fun r => r.id_left == k), r.id_left = k := by
      intro r hr
      have h := List.mem_filter.mp hr
      simpa using h.2
    obtain ⟨bs1, hf1, hw1⟩ := strataPairs_blocks g n d _ k hkey
      (uniqueLabels ((sorted.filter (fun r => r.id_left == k)).map Row.label)) t
    obtain ⟨bs2, hf2, hw2⟩ :=
      ih (strataPairs g n d (sorted.filter (fun r => r.id_left == k)) t
        (uniqueLabels ((sorted.filter (fun r => r.id_left == k)).map Row.label))).2
    refine ⟨bs1 ++ bs2, ?_, ?_⟩
    · simp only [groupsPairs, List.flatten_append, hf1, hf2]
    · intro b hb
      rcases List.mem_append.mp hb with h | h
      exacts [hw1 b h, hw2 b h]

theorem transform_ok_blocks (g : Nat → Nat) (n d : Nat) (rel : RelationTable)
    (table : List Row)
    (h : (transform_relation g n d rel).2 = Except.ok table) :
    ∃ blocks : List (List Row), table = blocks.flatten ∧
      ∀ b ∈ blocks, BlockWF n b := by
  by_cases hl : rel.hasLabel = false
  · simp [transform_relation, hl] at h
  · by_cases hp : (buildPairs g n d rel).isEmpty
    · simp [transform_relation, hl, hp] at h
    · have htab : table = (buildPairs g n d rel).flatten := by
        simp [transform_relation, hl, hp] at h
        exact h.symm
      obtain ⟨blocks, hf, hw⟩ := groupsPairs_blocks g n d (sortByLabelDesc rel.rows)
        (groupKeys (sortByLabelDesc rel.rows)) 0
      exact ⟨blocks, by rw [htab]; exact hf, hw⟩

/-! ### Indexing a flattened list of uniform-length blocks -/

theorem flatten_uniform_length {s : Nat} :
    ∀ (bs : List (List Row)), (∀ b ∈ bs, b.length = s) →
      bs.flatten.length = bs.length * s := by
  intro bs
  induction bs with
  | nil => intro _; simp
  | cons b bs ih =>
    intro h
    have hb := h b (List.mem_cons_self _ _)
    have hrest := ih (fun x hx => h x (List.mem_cons_of_mem _ hx))
    simp [List.flatten_cons, hb, hrest, Nat.succ_mul, Nat.add_comm]

theorem flatten_uniform_getElem {s : Nat} :
    ∀ (bs : List (List Row)) (k i : Nat), (∀ b ∈ bs, b.length = s) → i < s →
      bs.flatten[k * s + i]? = bs[k]?.bind (fun b => b[i]?) := by
  intro bs
  induction bs with
  | nil => intro k i _ _; simp
  | cons b bs ih =>
    intro k i h hi
    have hb : b.length = s := h b (List.mem_cons_self _ _)
    have hrest : ∀ x ∈ bs, x.length = s := fun x hx => h x (List.mem_cons_of_mem _ hx)
    cases k with
    | zero =>
      rw [List.flatten_cons, Nat.zero_mul, Nat.zero_add,
        List.getElem?_append_left (by rw [hb]; exact hi)]
      simp
    | succ k =>
      have hge : b.length ≤ (k + 1) * s + i := by
        rw [hb, Nat.succ_mul]
        omega
      rw [List.flatten_cons, List.getElem?_append_right hge]
      have harith : (k + 1) * s + i - b.length = k * s + i := by
        rw [hb, Nat.succ_mul]
        omega
      rw [harith, ih k i hrest hi]
      simp

/-! ### The drop policy and the empty build -/

theorem stratumStep_of_insufficient (g : Nat → Nat) (n : Nat) (negs : List Row)
    (h : negs.length < n) :
    ∀ (t : Nat) (ps : List Row), stratumStep g n negs t ps = ([], t) := by
  intro t ps
  induction ps with
  | nil => rfl
  | cons p ps ih =>
    rw [stratumStep, if_neg (Nat.not_le.mpr h)]
    exact ih

theorem mem_insertDesc (x a : Row) (l : List Row) :
    a ∈ insertDesc x l ↔ a = x ∨ a ∈ l := by
  induction l with
  | nil => simp [insertDesc]
  | cons y ys ih =>
    rw [insertDesc]
    by_cases h : y.label < x.label
    · simp [h]
    · simp only [if_neg h, List.mem_cons, ih]
      tauto

theorem mem_sortByLabelDesc (a : Row) (l : List Row) :
    a ∈ sortByLabelDesc l ↔ a ∈ l := by
  induction l with
  | nil => simp [sortByLabelDesc]
  | cons x xs ih =>
    show a ∈ insertDesc x (sortByLabelDesc xs) ↔ _
    rw [mem_insertDesc, ih]
    simp

theorem uniqueAux_subset (x : Int) :
    ∀ (l seen : List Int), x ∈ uniqueAux seen l → x ∈ l := by
  intro l
  induction l with
  | nil => intro seen h; simp [uniqueAux] at h
  | cons y ys ih =>
    intro seen h
    rw [uniqueAux] at h
    by_cases hc : seen.contains y
    · rw [if_pos hc] at h
      exact List.mem_cons_of_mem _ (ih seen h)
    · rw [if_neg hc] at h
      rcases List.mem_cons.mp h with h | h
      · exact h ▸ List.mem_cons_self _ _
      · exact List.mem_cons_of_mem _ (ih _ h)

theorem strataPairs_nil_of_insufficient (g : Nat → Nat) (n d : Nat)
    (group : List Row)
    (hall : ∀ l ∈ uniqueLabels (group.map Row.label),
      (group.filter (fun r => decide (r.label < l))).length < n) :
    ∀ t, strataPairs g n d group t (uniqueLabels (group.map Row.label)) = ([], t) := by
  have main : ∀ (ls : List Int),
      (∀ l ∈ ls, (group.filter (fun r => decide (r.label < l))).length < n) →
      ∀ t, strataPairs g n d group t ls = ([], t) := by
    intro ls
    induction ls with
    | nil => intro _ t; rfl
    | cons l ls ih =>
      intro h t
      rw [strataPairs]
      rw [stratumStep_of_insufficient g n _ (h l (List.mem_cons_self _ _)),
        ih (fun x hx => h x (List.mem_cons_of_mem _ hx)) t]
      rfl
  exact main _ hall

theorem groupsPairs_nil_of_single_label (g : Nat → Nat) (n d : Nat)
    (sorted : List Row) (hn : 1 ≤ n)
    (hconst : ∀ r ∈ sorted, ∀ s ∈ sorted, r.id_left = s.id_left → r.label = s.label) :
    ∀ (ks : List String) (t : Nat), groupsPairs g n d sorted t ks = ([], t) := by
  intro ks
  induction ks with
  | nil => intro t; rfl
  | cons k ks ih =>
    intro t
    rw [groupsPairs]
    have hall : ∀ l ∈ uniqueLabels ((sorted.filter (fun r => r.id_left == k)).map Row.label),
        ((sorted.filter (fun r => r.id_left == k)).filter
          (fun r => decide (r.label < l))).length < n := by
      intro l hl
      obtain ⟨r0, hr0, hr0l⟩ := List.mem_map.mp (uniqueAux_subset l _ [] hl)
      have hfilter : (sorted.filter (fun r => r.id_left == k)).filter
          (fun r => decide (r.label < l)) = [] := by
        apply List.filter_eq_nil_iff.mpr
        intro r hr
        have hrmem := List.mem_filter.mp hr
        have hr0mem := List.mem_filter.mp hr0
        have hid : r.id_left = r0.id_left := by
          have h1 : r.id_left = k := by simpa using hrmem.2
          have h2 : r0.id_left = k := by simpa using hr0mem.2
          rw [h1, h2]
        have hlab : r.label = r0.label := hconst r hrmem.1 r0 hr0mem.1 hid
        simp [hlab, hr0l]
      rw [hfilter]
      simpa using hn
    rw [strataPairs_nil_of_insufficient g n d _ hall t, ih t]
    rfl

/-! ### Batch index expansion -/

theorem foldl_append_eq (f : Nat → List Nat) :
    ∀ (l : List Nat) (init : List Nat),
      l.foldl (fun acc x => acc ++ f x) init = init ++ l.flatMap f := by
  intro l
  induction l with
  | nil => intro init; simp
  | cons a l ih => intro init; simp [ih, List.append_assoc]

theorem transIndex_eq_flatMap (steps : Nat) (l : List Nat) :
    transIndex steps l = l.flatMap (fun i => List.range' (i * steps) steps) := by
  rw [transIndex, foldl_append_eq]
  simp

/-! ### The doctest scenario (lines 18-52 of the source) -/

/-- Relation entry `('qid0', 'did0', 0)`. -/
def rowD0 : Row := { id_left := "qid0", id_right := "did0", label := 0 }

/-- Relation entry `('qid0', 'did1', 1)`. -/
def rowD1 : Row := { id_left := "qid0", id_right := "did1", label := 1 }

/-- Relation entry `('qid0', 'did2', 2)`. -/
def rowD2 : Row := { id_left := "qid0", id_right := "did2", label := 2 }

/-- The doctest relation, integer labels as written. -/
def relScenario : RelationTable :=
  { rows := [rowD0, rowD1, rowD2], hasLabel := true, labelDtype := Dtype.int64 }

/-- The doctest left feature table `{qid0: [1, 2]}`. -/
def leftScenario : FeatureTable := [("qid0", [1, 2])]

/-- The doctest right feature table. -/
def rightScenario : FeatureTable :=
  [("did0", [2, 3]), ("did1", [3, 4]), ("did2", [4, 5])]

/-! ### Claim theorems -/

/-- C1: for every pair table produced by `transform_relation` (any input
relation with a label column, any `num_neg ≥ 1`, any `num_dup ≥ 1`, any
state of the ambient generator) and every block of `num_neg + 1`
consecutive rows, the label of row 0 of the block is strictly greater
than the label of row `i` for every `i` in `[1, num_neg]`. -/
theorem pair_table_strict_dominance (g : Nat → Nat) (n d : Nat)
    (rel : RelationTable) (table : List Row) (k i : Nat) (p r : Row)
    (hn : 1 ≤ n) (hd : 1 ≤ d)
    (hok : (transform_relation g n d rel).2 = Except.ok table)
    (hi1 : 1 ≤ i) (hin : i ≤ n)
    (hp : table[k * (n + 1)]? = some p)
    (hr : table[k * (n + 1) + i]? = some r) :
    r.label < p.label := by
  obtain ⟨blocks, htab, hwf⟩ := transform_ok_blocks g n d rel table hok
  have hlen : ∀ b ∈ blocks, b.length = n + 1 := by
    intro b hb
    obtain ⟨q, ns, hbe, hns, _⟩ := hwf b hb
    simp [hbe, hns]
  subst htab
  rw [show k * (n + 1) = k * (n + 1) + 0 from (Nat.add_zero _).symm,
    flatten_uniform_getElem blocks k 0 hlen (Nat.succ_pos n)] at hp
  rw [flatten_uniform_getElem blocks k i hlen (Nat.lt_succ_of_le hin)] at hr
  obtain ⟨b, hbk, hb0⟩ := Option.bind_eq_some.mp hp
  obtain ⟨b', hbk', hbi⟩ := Option.bind_eq_some.mp hr
  rw [hbk] at hbk'
  injection hbk' with hbb
  subst hbb
  obtain ⟨q, ns, hbe, hns, hdom⟩ := hwf b (List.getElem?_mem hbk)
  subst hbe
  rw [List.getElem?_cons_zero] at hb0
  injection hb0 with hqp
  obtain ⟨j, hj⟩ : ∃ j, i = j + 1 := ⟨i - 1, by omega⟩
  subst hj
  rw [List.getElem?_cons_succ] at hbi
  have hrd := hdom r (List.getElem?_mem hbi)
  rw [← hqp]
  exact hrd.1

/-- C6: for every pair table produced by `transform_relation` and every
block of `num_neg + 1` consecutive rows, `id_left` is identical across
all rows of the block: every row `i ≤ num_neg` of block `k` has the same
`id_left` as row 0 (the negatives are drawn from the positive's own
left-entity group only). -/
theorem pair_table_same_group (g : Nat → Nat) (n d : Nat)
    (rel : RelationTable) (table : List Row) (k i : Nat) (p r : Row)
    (hn : 1 ≤ n) (hd : 1 ≤ d)
    (hok : (transform_relation g n d rel).2 = Except.ok table)
    (hin : i ≤ n)
    (hp : table[k * (n + 1)]? = some p)
    (hr : table[k * (n + 1) + i]? = some r) :
    r.id_left = p.id_left := by
  obtain ⟨blocks, htab, hwf⟩ := transform_ok_blocks g n d rel table hok
  have hlen : ∀ b ∈ blocks, b.length = n + 1 := by
    intro b hb
    obtain ⟨q, ns, hbe, hns, _⟩ := hwf b hb
    simp [hbe, hns]
  subst htab
  rw [show k * (n + 1) = k * (n + 1) + 0 from (Nat.add_zero _).symm,
    flatten_uniform_getElem blocks k 0 hlen (Nat.succ_pos n)] at hp
  rw [flatten_uniform_getElem blocks k i hlen (Nat.lt_succ_of_le hin)] at hr
  obtain ⟨b, hbk, hb0⟩ := Option.bind_eq_some.mp hp
  obtain ⟨b', hbk', hbi⟩ := Option.bind_eq_some.mp hr
  rw [hbk] at hbk'
  injection hbk' with hbb
  subst hbb
  obtain ⟨q, ns, hbe, hns, hdom⟩ := hwf b (List.getElem?_mem hbk)
  subst hbe
  rw [List.getElem?_cons_zero] at hb0
  injection hb0 with hqp
  cases i with
  | zero =>
    rw [List.getElem?_cons_zero] at hbi
    injection hbi with hqr
    rw [← hqp, ← hqr]
  | succ j =>
    rw [List.getElem?_cons_succ] at hbi
    have hrd := hdom r (List.getElem?_mem hbi)
    rw [← hqp]
    exact hrd.2

/-- C7: every pair table produced by `transform_relation` with negative
count `num_neg` has a number of rows that is an exact multiple of the
stride `num_neg + 1`, so `len(pair_table) // (num_neg + 1)` leaves no
unreachable remainder rows. -/
theorem pair_table_length_multiple (g : Nat → Nat) (n d : Nat)
    (rel : RelationTable) (table : List Row)
    (hok : (transform_relation g n d rel).2 = Except.ok table) :
    table.length % (n + 1) = 0 := by
  obtain ⟨blocks, htab, hwf⟩ := transform_ok_blocks g n d rel table hok
  have hlen : ∀ b ∈ blocks, b.length = n + 1 := by
    intro b hb
    obtain ⟨q, ns, hbe, hns, _⟩ := hwf b hb
    simp [hbe, hns]
  subst htab
  rw [flatten_uniform_length blocks hlen]
  exact Nat.mul_mod_left _ _

/-- Drawing one sample from a two-element pool yields one of the two
elements, whichever ambient generator state is in effect. -/
theorem sampleWR_pair (g : Nat → Nat) (t : Nat) (a b : Row) :
    sampleWR g t 1 [a, b] = [a] ∨ sampleWR g t 1 [a, b] = [b] := by
  rcases Nat.mod_two_eq_zero_or_one (g t) with h | h
  · left
    simp [sampleWR, h]
  · right
    simp [sampleWR, h]

/-- Drawing one sample from a one-element pool is forced. -/
theorem sampleWR_singleton (g : Nat → Nat) (t : Nat) (a : Row) :
    sampleWR g t 1 [a] = [a] := by
  simp [sampleWR, Nat.mod_one]

/-- C8: on the doctest relation with `num_neg = 1`, `num_dup = 1` and any
state of the ambient generator, the built pair table has exactly the two
blocks `[did2, one of {did1, did0}]` (stratum label 2) and `[did1, did0]`
(stratum label 1, forced negative; stratum label 0 yields no block), and
assembling logical index 1 against the doctest feature tables yields
`id_right = [did1, did0]`, `text_right = [[3,4],[2,3]]`, `label = [1,0]`
and `text_left = [[1,2],[1,2]]`. -/
theorem scenario_build_and_assemble (g : Nat → Nat) :
    ∃ neg : Row, (neg = rowD1 ∨ neg = rowD0) ∧
      (transform_relation g 1 1 relScenario).2 =
        Except.ok [rowD2, neg, rowD1, rowD0] ∧
      getBatch leftScenario rightScenario 2 [rowD2, neg, rowD1, rowD0] [1] =
        { id_left := [some "qid0", some "qid0"]
        , id_right := [some "did1", some "did0"]
        , text_left := [some [1, 2], some [1, 2]]
        , text_right := [some [3, 4], some [2, 3]]
        , label := [some 1, some 0] } := by
  have hshape : (transform_relation g 1 1 relScenario).2 =
      Except.ok (rowD2 :: (sampleWR g 0 1 [rowD1, rowD0] ++
        (rowD1 :: (sampleWR g 1 1 [rowD0] ++ [])))) := rfl
  rw [sampleWR_singleton g 1 rowD0] at hshape
  rcases sampleWR_pair g 0 rowD1 rowD0 with h | h
  · rw [h] at hshape
    exact ⟨rowD1, Or.inl rfl, hshape, by decide⟩
  · rw [h] at hshape
    exact ⟨rowD0, Or.inr rfl, hshape, by decide⟩

/-- C3: batch assembly expands each logical index `i` to exactly the
contiguous row range `[i*stride, (i+1)*stride)` in the order the indices
are given, and assembling two index arrays separately and concatenating
the results yields exactly the same rows (ids, features, labels) as
assembling their concatenation at once — blocks are never interleaved. -/
theorem block_atomic_batching (left right : FeatureTable) (steps : Nat)
    (table : List Row) (a b : List Nat) (i : Nat) :
    transIndex steps [i] = List.range' (i * steps) steps
    ∧ transIndex steps (a ++ b) = transIndex steps a ++ transIndex steps b
    ∧ getBatch left right steps table (a ++ b) =
        Batch.append (getBatch left right steps table a)
          (getBatch left right steps table b) := by
  refine ⟨?_, ?_, ?_⟩
  · simp [transIndex_eq_flatMap]
  · simp [transIndex_eq_flatMap, List.flatMap_append]
  · ext1 <;>
      simp [getBatch, Batch.append, transIndex_eq_flatMap, List.flatMap_append]

/-- C2: a stratum whose negative pool is smaller than `num_neg` is dropped
silently: (1) processing that stratum label contributes no block (every
duplicated positive of the stratum is skipped), leaves the draw counter
untouched, and the build simply moves on to the remaining strata; and
(2) the drop itself never raises — whenever the relation has a label
column and at least one block was emitted somewhere, `transform_relation`
returns the concatenated pair table successfully. -/
theorem insufficient_negatives_drop :
    (∀ (g : Nat → Nat) (n d : Nat) (group : List Row) (l : Int)
        (ls : List Int) (t : Nat),
      (group.filter (fun r => decide (r.label < l))).length < n →
      strataPairs g n d group t (l :: ls) = strataPairs g n d group t ls)
    ∧ (∀ (g : Nat → Nat) (n d : Nat) (rel : RelationTable),
      rel.hasLabel = true → buildPairs g n d rel ≠ [] →
      (transform_relation g n d rel).2 =
        Except.ok (buildPairs g n d rel).flatten) := by
  constructor
  · intro g n d group l ls t h
    rw [strataPairs, stratumStep_of_insufficient g n _ h]
    rcases hrest : strataPairs g n d group t ls with ⟨ps, t'⟩
    simp
  · intro g n d rel hl hne
    have hl' : ¬ rel.hasLabel = false := by simp [hl]
    have hempty : (buildPairs g n d rel).isEmpty = false :=
      List.isEmpty_eq_false.mpr hne
    simp [transform_relation, hl', hempty]

/-- C9: the build raises the missing-label error exactly when the input
relation has no label column; in that case it raises before mutating the
input or producing any block (the pair is returned unchanged alongside
the error), and when a label column is present the missing-label error is
never raised — no other validation of the ids is performed at build time. -/
theorem missing_label_error_iff (g : Nat → Nat) (n d : Nat)
    (rel : RelationTable) :
    ((transform_relation g n d rel).2 = Except.error BuildError.missingLabel
      ↔ rel.hasLabel = false)
    ∧ (rel.hasLabel = false →
      transform_relation g n d rel = (rel, Except.error BuildError.missingLabel)) := by
  by_cases hl : rel.hasLabel = false
  · refine ⟨⟨fun _ => hl, fun _ => ?_⟩, fun _ => ?_⟩ <;>
      simp [transform_relation, hl]
  · refine ⟨⟨fun h => ?_, fun h => absurd h hl⟩, fun h => absurd h hl⟩
    by_cases hp : (buildPairs g n d rel).isEmpty <;>
      simp [transform_relation, hl, hp] at h

/-- C10: when every `id_left` group of the input relation carries a single
distinct label value (so every stratum's negative pool is empty), no block
is emitted at all and `transform_relation` raises the
`pd.concat`-of-an-empty-list error instead of returning an empty pair
table — constructing a generator on such a relation fails. -/
theorem empty_build_raises (g : Nat → Nat) (n d : Nat) (rel : RelationTable)
    (hn : 1 ≤ n) (hl : rel.hasLabel = true)
    (hconst : ∀ r ∈ rel.rows, ∀ s ∈ rel.rows,
      r.id_left = s.id_left → r.label = s.label) :
    (transform_relation g n d rel).2 = Except.error BuildError.emptyConcat := by
  have hconst' : ∀ r ∈ sortByLabelDesc rel.rows, ∀ s ∈ sortByLabelDesc rel.rows,
      r.id_left = s.id_left → r.label = s.label := by
    intro r hr s hs
    exact hconst r ((mem_sortByLabelDesc r _).mp hr) s ((mem_sortByLabelDesc s _).mp hs)
  have hpairs : buildPairs g n d rel = [] := by
    rw [buildPairs]
    rw [groupsPairs_nil_of_single_label g n d _ hn hconst' _ 0]
  have hl' : ¬ rel.hasLabel = false := by simp [hl]
  simp [transform_relation, hl', hpairs]

/-- C4 counterexample: `transform_relation` does not leave the caller's
relation table unchanged.  On the doctest relation with integer labels the
call succeeds, yet afterwards the caller's table differs from what it held
before: line 103 reassigned the label column in place, coerced to the
Ranking task's float output dtype. -/
theorem transform_mutates_input_counterexample :
    (transform_relation (fun _ => 0) 1 1 relScenario).1 ≠ relScenario := by
  decide

/-- C4 amended: building a pair table mutates the input relation only by
coercing its label column in place to the Ranking task's float output
dtype (when a label column exists; a missing label column aborts before
the mutation).  The rows themselves — ids and numeric label values — and
the set of columns are unchanged. -/
theorem transform_coerces_label_dtype_only (g : Nat → Nat) (n d : Nat)
    (rel : RelationTable) :
    (transform_relation g n d rel).1 =
      (if rel.hasLabel = true then
        { rows := rel.rows, hasLabel := rel.hasLabel, labelDtype := Dtype.float64 }
       else rel)
    ∧ (transform_relation g n d rel).1.rows = rel.rows := by
  by_cases hl : rel.hasLabel = false
  · have : ¬ rel.hasLabel = true := by simp [hl]
    simp [transform_relation, hl, this]
  · have hl' : rel.hasLabel = true := by
      cases h : rel.hasLabel
      · exact absurd h hl
      · rfl
    by_cases hp : (buildPairs g n d rel).isEmpty <;>
      simp [transform_relation, hl, hl', hp]

/-- C5 counterexample: the build does not expose a seed parameter; its
output depends on the state of the ambient global numpy generator.  Two
builds over the same relation, `num_neg` and `num_dup` — everything the
build's interface lets a caller fix — produce different pair tables under
two different ambient generator states, refuting determinism as stated. -/
theorem ambient_rng_dependence_counterexample :
    (transform_relation (fun _ => 0) 1 1 relScenario).2 ≠
      (transform_relation (fun _ => 1) 1 1 relScenario).2 := by
  decide

/-- C5 amended: the build consumes randomness only through the single
ambient generator stream, read sequentially; its output is a deterministic
function of the input relation, `num_neg`, `num_dup` and that stream, so
two builds observing the same ambient generator state (e.g. after an
identical global `np.random.seed`) produce identical pair tables —
and identical mutations of the input. -/
theorem build_deterministic_in_rng_stream (g1 g2 : Nat → Nat) (n d : Nat)
    (rel : RelationTable) (h : ∀ i, g1 i = g2 i) :
    transform_relation g1 n d rel = transform_relation g2 n d rel := by
  rw [show g1 = g2 from funext h]

/-! ### Witnesses -/

/-- Witness for C1 at the doctest relation, generator stream constantly 0,
block 0, row 1. -/
theorem pair_table_strict_dominance_witness :
    rowD1.label < rowD2.label :=
  pair_table_strict_dominance (fun _ => 0) 1 1 relScenario
    [rowD2, rowD1, rowD1, rowD0] 0 1 rowD2 rowD1
    (by decide) (by decide) (by decide) (by decide) (by decide)
    (by decide) (by decide)

/-- Witness for C6 at the doctest relation, block 0, row 1. -/
theorem pair_table_same_group_witness :
    rowD1.id_left = rowD2.id_left :=
  pair_table_same_group (fun _ => 0) 1 1 relScenario
    [rowD2, rowD1, rowD1, rowD0] 0 1 rowD2 rowD1
    (by decide) (by decide) (by decide) (by decide) (by decide) (by decide)

/-- Witness for C7 at the doctest relation: 4 rows, stride 2. -/
theorem pair_table_length_multiple_witness :
    List.length [rowD2, rowD1, rowD1, rowD0] % (1 + 1) = 0 :=
  pair_table_length_multiple (fun _ => 0) 1 1 relScenario
    [rowD2, rowD1, rowD1, rowD0] (by decide)

/-- Witness for C2: the label-0 stratum of the one-row group `[rowD0]` has
an empty negative pool and contributes nothing, and the doctest build
(which drops its own label-0 stratum) still returns successfully. -/
theorem insufficient_negatives_drop_witness :
    strataPairs (fun _ => 0) 1 1 [rowD0] 0 [(0 : Int)] =
      strataPairs (fun _ => 0) 1 1 [rowD0] 0 []
    ∧ (transform_relation (fun _ => 0) 1 1 relScenario).2 =
      Except.ok (buildPairs (fun _ => 0) 1 1 relScenario).flatten :=
  ⟨insufficient_negatives_drop.1 (fun _ => 0) 1 1 [rowD0] 0 [] 0 (by decide),
   insufficient_negatives_drop.2 (fun _ => 0) 1 1 relScenario
     (by decide) (by decide)⟩

/-- A relation with no label column. -/
def relNoLabel : RelationTable :=
  { rows := [], hasLabel := false, labelDtype := Dtype.int64 }

/-- Witness for C9: on a relation without a label column the build raises
the missing-label error and returns the input untouched. -/
theorem missing_label_error_iff_witness :
    transform_relation (fun _ => 0) 1 1 relNoLabel =
      (relNoLabel, Except.error BuildError.missingLabel) :=
  (missing_label_error_iff (fun _ => 0) 1 1 relNoLabel).2 (by decide)

/-- A relation whose only group has a single distinct label value. -/
def relUniform : RelationTable :=
  { rows := [{ id_left := "q", id_right := "d0", label := 1 },
             { id_left := "q", id_right := "d1", label := 1 }]
  , hasLabel := true, labelDtype := Dtype.int64 }

/-- Witness for C10: building on a single-label relation raises the
empty-concatenation error. -/
theorem empty_build_raises_witness :
    (transform_relation (fun _ => 0) 1 1 relUniform).2 =
      Except.error BuildError.emptyConcat :=
  empty_build_raises (fun _ => 0) 1 1 relUniform (by decide) (by decide)
    (by decide)

/-- Witness for the amended C5: two builds reading equal ambient generator
streams coincide on the doctest relation. -/
theorem build_deterministic_in_rng_stream_witness :
    transform_relation (fun _ => 0) 1 1 relScenario =
      transform_relation (fun _ => 0) 1 1 relScenario :=
  build_deterministic_in_rng_stream (fun _ => 0) (fun _ => 0) 1 1 relScenario
    (fun _ => rfl)
